import Mathlib

/-!
Verification of the gateway_provisioners remote-kernel provisioner core.

This file gives a shallow embedding, in Lean 4, of the parts of the
`gateway_provisioners` Python code base that the specification's claims are
about, together with theorems settling each claim:

* `distributed.py` — round-robin / least-connection host selection and the
  `TrackKernelOnHost` counter map;
* `remote_provisioner.py` — authorization enforcement and port-range
  validation;
* `response_manager.py` — the payload decode pipeline (`_decode_payload`),
  the port fallback generator (`_random_ports`) and bind loop
  (`_prepare_response_socket`), and `get_connection_info`;
* `kernel-launchers/shared/scripts/server_listener.py` — the payload
  encode pipeline (`_encrypt`);
* `yarn.py` — `_query_app_by_name`;
* `k8s.py` — `_determine_kernel_pod_name`.

Python dictionaries are modelled as insertion-ordered association lists,
Python byte-strings and text strings both as Lean `String`s, and the
cryptographic / serialization library primitives (base64, RSA-PKCS1v1.5,
AES-ECB, PKCS7 padding, JSON) as explicit function parameters whose
round-trip behaviour is hypothesised where a claim needs it.
-/

namespace GatewayProvisioners

/-! ## Python dictionaries as insertion-ordered association lists -/

/-- An insertion-ordered association list with `String` keys: the model of a
Python `dict`. -/
abbrev AList (α : Type) := List (String × α)

/-- `d.get(key)`: first value bound to `key`, if any. -/
def aGet {α : Type} : AList α → String → Option α
  | [], _ => none
  | (k, v) :: rest, key => if k = key then some v else aGet rest key

/-- `d[key] = v`: update in place when present (preserving insertion order),
else append at the end — Python `dict` assignment. -/
def aSet {α : Type} : AList α → String → α → AList α
  | [], key, v => [(key, v)]
  | (k, w) :: rest, key, v =>
      if k = key then (k, v) :: rest else (k, w) :: aSet rest key v

/-- `del d[key]`: remove the binding for `key` (first occurrence). -/
def aRemove {α : Type} : AList α → String → AList α
  | [], _ => []
  | (k, w) :: rest, key => if k = key then rest else (k, w) :: aRemove rest key

/-- Python truthiness of an `Optional[str]`: `None` and `""` are falsy. -/
def pyTruthy : Option String → Bool
  | none => false
  | some s => !(s = "")

/-- Environment dictionaries (`env_dict`, `kwargs["env"]`). -/
abbrev Env := AList String

/-! ## `distributed.py` — `DistributedProvisioner._determine_next_host`,
round-robin branch (`least_connection == False`, lines 297-313) -/

/-- Model of `_determine_next_host` when `load_balancing_algorithm` is
`round-robin`: the override `env_dict.get("KERNEL_REMOTE_HOST")` is used when
truthy, else `remote_hosts[host_index % len(remote_hosts)]`; the class-level
`host_index` is incremented unconditionally.  Returns the chosen host and the
new `host_index`. -/
def determineNextHostRR (remoteHosts : List String) (hostIndex : Nat)
    (envDict : Env) : String × Nat :=
  let remoteHost := aGet envDict "KERNEL_REMOTE_HOST"
  let nextHost :=
    if pyTruthy remoteHost then remoteHost.getD ""
    else remoteHosts.getD (hostIndex % remoteHosts.length) ""
  (nextHost, hostIndex + 1)

/-- Successive round-robin launches: thread `host_index` through a sequence of
`launch_kernel` calls (one `env_dict` per launch), collecting assigned hosts. -/
def runLaunches (remoteHosts : List String) : Nat → List Env → List String
  | _, [] => []
  | hostIndex, envDict :: rest =>
      let r := determineNextHostRR remoteHosts hostIndex envDict
      r.1 :: runLaunches remoteHosts r.2 rest

/-! ## `distributed.py` — `TrackKernelOnHost` (lines 28-63) -/

/-- State of the shared least-connection tracker: `_host_kernels`
(host → active-kernel count) and `_kernel_host_mapping` (kernel id → host). -/
structure TrackKernelOnHost where
  hostKernels : AList Int
  kernelHostMapping : AList String
deriving DecidableEq

/-- `TrackKernelOnHost.increment`. -/
def increment (t : TrackKernelOnHost) (host : String) : TrackKernelOnHost :=
  let val := (aGet t.hostKernels host).getD 0
  { t with hostKernels := aSet t.hostKernels host (val + 1) }

/-- `TrackKernelOnHost.decrement`. -/
def decrement (t : TrackKernelOnHost) (host : String) : TrackKernelOnHost :=
  let val := (aGet t.hostKernels host).getD 0
  { t with hostKernels := aSet t.hostKernels host (val - 1) }

/-- `TrackKernelOnHost.add_kernel_id`: record the kernel's host, then bump the
host's counter. -/
def addKernelId (t : TrackKernelOnHost) (host kernelId : String) :
    TrackKernelOnHost :=
  increment { t with kernelHostMapping := aSet t.kernelHostMapping kernelId host }
    host

/-- `TrackKernelOnHost.delete_kernel_id`: look the host up; when truthy,
decrement its counter and delete the mapping entry. -/
def deleteKernelId (t : TrackKernelOnHost) (kernelId : String) :
    TrackKernelOnHost :=
  match aGet t.kernelHostMapping kernelId with
  | none => t
  | some host =>
      if host = "" then t
      else
        let t' := decrement t host
        { t' with kernelHostMapping := aRemove t'.kernelHostMapping kernelId }

/-- Python `min(d, key=lambda k: d[k])` over an insertion-ordered dict:
fold keeping the current best, replacing it only on a strictly smaller value,
so the first key attaining the minimum wins. -/
def minFold : AList Int → String → Int → String × Int
  | [], bestKey, bestVal => (bestKey, bestVal)
  | (k, v) :: rest, bestKey, bestVal =>
      if v < bestVal then minFold rest k v else minFold rest bestKey bestVal

/-- `min(self._host_kernels, key=lambda k: self._host_kernels[k])`; `none`
models the `ValueError` Python raises on an empty dict. -/
def pyMinByVal : AList Int → Option String
  | [] => none
  | (k, v) :: rest => some (minFold rest k v).1

/-- `TrackKernelOnHost.min_or_remote_host`. -/
def minOrRemoteHost (t : TrackKernelOnHost) (remoteHost : Option String) :
    Option String :=
  if pyTruthy remoteHost then remoteHost else pyMinByVal t.hostKernels

/-- Spec-side reading of the tie-breaking rule: the first entry of the counter
map whose count is less than or equal to every count in the map. -/
def firstMinKey (l : AList Int) : Option String :=
  (l.find? (fun p => l.all (fun q => p.2 ≤ q.2))).map (fun p => p.1)

/-- A tracker operation: `add_kernel_id host kernel_id` or
`delete_kernel_id kernel_id`. -/
inductive TrackOp where
  | add (host kernelId : String)
  | del (kernelId : String)
deriving DecidableEq

/-- Run a sequence of tracker operations from a given state. -/
def runTrackOps (t : TrackKernelOnHost) : List TrackOp → TrackKernelOnHost
  | [] => t
  | TrackOp.add host kid :: rest => runTrackOps (addKernelId t host kid) rest
  | TrackOp.del kid :: rest => runTrackOps (deleteKernelId t kid) rest

/-- The kernel ids added and not yet deleted after a sequence of operations,
computed spec-side directly from the operation list. -/
def liveKernelIds (acc : List String) : List TrackOp → List String
  | [] => acc
  | TrackOp.add _ kid :: rest => liveKernelIds (acc ++ [kid]) rest
  | TrackOp.del kid :: rest => liveKernelIds (acc.erase kid) rest

/-- Well-formed operation sequences relative to the current live set: every
`add` uses a truthy (non-empty) host and a kernel id that is not currently
live — the usage pattern of `DistributedProvisioner` (fresh UUID kernel ids,
real hostnames). -/
def validOps (live : List String) : List TrackOp → Prop
  | [] => True
  | TrackOp.add host kid :: rest =>
      host ≠ "" ∧ kid ∉ live ∧ validOps (live ++ [kid]) rest
  | TrackOp.del kid :: rest => validOps (live.erase kid) rest

/-- Sum of the per-host counters. -/
def counterSum (t : TrackKernelOnHost) : Int :=
  (t.hostKernels.map (fun p => p.2)).sum

/-! ## `remote_provisioner.py` — `_enforce_authorization` (lines 460-477)
and the authorization step of `pre_launch` (lines 137-141) -/

/-- The two denial messages `_raise_authorization_error` distinguishes. -/
inductive AuthError where
  | notAuthorized
  | notInAuthorizedSet
deriving DecidableEq

/-- Model of `_enforce_authorization`: membership in `unauthorized_users` is
checked first; then, when `authorized_users` is non-empty, absence from it
also denies. `none` means the launch may proceed. -/
def enforceAuthorization (kernelUsername : String)
    (unauthorizedUsers authorizedUsers : List String) : Option AuthError :=
  if kernelUsername ∈ unauthorizedUsers then some AuthError.notAuthorized
  else
    if authorizedUsers.length > 0 then
      if kernelUsername ∉ authorizedUsers then some AuthError.notInAuthorizedSet
      else none
    else none

/-- The authorization-relevant fragment of `pre_launch`: derive
`kernel_username` from `env.KERNEL_USERNAME` (falling back to the OS user),
then enforce authorization; a denial aborts the launch (`Except.error`),
otherwise the username is returned and the launch proceeds. -/
def preLaunchAuth (env : Env) (osUser : String)
    (unauthorizedUsers authorizedUsers : List String) : Except AuthError String :=
  let kernelUsername := (aGet env "KERNEL_USERNAME").getD osUser
  match enforceAuthorization kernelUsername unauthorizedUsers authorizedUsers with
  | some e => Except.error e
  | none => Except.ok kernelUsername

/-! ## `remote_provisioner.py` — `_validate_port_range` (lines 489-550) -/

/-- Failure modes of `_validate_port_range`. `rangeSizeTooSmall` and
`invalidPort` are the `ValueError`s raised through `log_and_raise`;
`indexError` is the `RuntimeError` raised when the string has no `..`
separator; `valueError` models the uncaught `int()` conversion failure. -/
inductive PortRangeError where
  | rangeSizeTooSmall
  | invalidPort (port : Int)
  | indexError
  | valueError
deriving DecidableEq

/-- `GP_MIN_PORT_RANGE_SIZE` default. -/
def minPortRangeSize : Int := 1000

/-- Python `port_range.split("..")` on the character list: each (leftmost,
non-overlapping) occurrence of the two-dot separator ends the current token. -/
def pySplitDotDot (acc : List Char) : List Char → List (List Char)
  | [] => [acc.reverse]
  | '.' :: '.' :: rest => acc.reverse :: pySplitDotDot [] rest
  | c :: rest => pySplitDotDot (c :: acc) rest

/-- Python `port_range.split("..")`. -/
def splitOnDotDot (s : String) : List String :=
  (pySplitDotDot [] s.toList).map String.mk

/-- Decimal digit accumulation for `int()`: `none` when a non-digit occurs. -/
def pyParseDigits (acc : Nat) : List Char → Option Nat
  | [] => some acc
  | c :: rest =>
      if '0' ≤ c ∧ c ≤ '9' then
        pyParseDigits (acc * 10 + (c.toNat - '0'.toNat)) rest
      else none

/-- Python `int(s)` (base 10, without the whitespace/underscore tolerance,
which the port-range strings never use): an optional sign followed by at
least one decimal digit; `none` models the `ValueError`. -/
def pyInt (s : String) : Option Int :=
  match s.toList with
  | '-' :: rest =>
      if rest = [] then none
      else (pyParseDigits 0 rest).map (fun n => -(n : Int))
  | '+' :: rest =>
      if rest = [] then none
      else (pyParseDigits 0 rest).map (fun n => (n : Int))
  | l =>
      if l = [] then none
      else (pyParseDigits 0 l).map (fun n => (n : Int))

/-- Model of `_validate_port_range`: split on `".."`, convert both endpoints
with `int()`, and when the range size `upper - lower` is non-zero require the
size to be at least `minPortRangeSize` and both endpoints to lie in
`[1024, 65535]`. -/
def validatePortRange (portRange : String) : Except PortRangeError (Int × Int) :=
  let portRanges := splitOnDotDot portRange
  match pyInt (portRanges.getD 0 "") with
  | none => Except.error PortRangeError.valueError
  | some lowerPort =>
    match portRanges.get? 1 with
    | none => Except.error PortRangeError.indexError
    | some upperStr =>
      match pyInt upperStr with
      | none => Except.error PortRangeError.valueError
      | some upperPort =>
        let portRangeSize := upperPort - lowerPort
        if portRangeSize ≠ 0 then
          if portRangeSize < minPortRangeSize then
            Except.error PortRangeError.rangeSizeTooSmall
          else if lowerPort < 1024 ∨ lowerPort > 65535 then
            Except.error (PortRangeError.invalidPort lowerPort)
          else if upperPort < 1024 ∨ upperPort > 65535 then
            Except.error (PortRangeError.invalidPort upperPort)
          else Except.ok (lowerPort, upperPort)
        else Except.ok (lowerPort, upperPort)

/-! ## `response_manager.py` — `_random_ports` (lines 339-349) and the bind
loop of `_prepare_response_socket` (lines 141-188) -/

/-- `GP_RESPONSE_PORT` default. -/
def desiredResponsePort : Int := 8877

/-- `GP_RESPONSE_PORT_RETRIES` default. -/
def responsePortRetries : Nat := 10

/-- Model of the static generator `_random_ports(port, n)`: the first
`min(5, n)` candidates are sequential (`port + i`); the remaining `n - 5` are
`max(1, port + r)` where `r` is a fresh draw of `random.randint(-2*n, 2*n)`.
The random stream is the explicit argument `rng` (`rng j` is the `j`-th
draw). -/
def randomPorts (port : Int) (n : Nat) (rng : Nat → Int) : List Int :=
  (List.range (min 5 n)).map (fun (i : Nat) => port + (i : Int)) ++
    (List.range (n - 5)).map (fun j => max 1 (port + rng j))

/-- Outcome of `socket.bind` on one candidate port, as discriminated by the
`except OSError` arms of `_prepare_response_socket`. -/
inductive BindOutcome where
  | ok
  | addrInUse
  | acces
  | otherError
deriving DecidableEq

/-- Failure modes of `_prepare_response_socket`: every candidate was skipped
(`RuntimeError` "No available response port could be found"), or a bind
failed with an errno other than EADDRINUSE / EACCES (`RuntimeError` raised
from the triggering `OSError`). -/
inductive BindError where
  | exhausted
  | failedBind (port : Int)
deriving DecidableEq

/-- The `for ... else` bind loop of `_prepare_response_socket`: try each
candidate in order; EADDRINUSE and EACCES are skipped with a log message;
any other bind error raises immediately; success returns the bound port; an
exhausted candidate list raises. -/
def bindLoop (bind : Int → BindOutcome) : List Int → Except BindError Int
  | [] => Except.error BindError.exhausted
  | p :: rest =>
      match bind p with
      | BindOutcome.ok => Except.ok p
      | BindOutcome.addrInUse => bindLoop bind rest
      | BindOutcome.acces => bindLoop bind rest
      | BindOutcome.otherError => Except.error (BindError.failedBind p)

/-- Port selection in `_prepare_response_socket`: iterate `bind` over
`_random_ports(response_port, response_port_retries + 1)`. -/
def prepareResponseSocketPort (responsePort : Int) (retries : Nat)
    (rng : Nat → Int) (bind : Int → BindOutcome) : Except BindError Int :=
  bindLoop bind (randomPorts responsePort (retries + 1) rng)

/-! ## `response_manager.py` — payload model and `_decode_payload`
(lines 234-322), with the encode side from
`kernel-launchers/shared/scripts/server_listener.py::_encrypt`
(lines 76-99) -/

/-- A Python value inside a connection-information dictionary: JSON parsing
produces `str` (and numbers); the server converts the `"key"` entry to
`bytes` before returning. -/
inductive PVal where
  | str (s : String)
  | bytes (s : String)
  | int (n : Int)
deriving DecidableEq

/-- A decoded connection-information object (a Python `dict`). -/
abbrev Conn := AList PVal

/-- The JSON envelope of a payload: `version`, `key` and `conn_info` fields,
each possibly absent (`payload.get("version")` / `payload["key"]` /
`payload["conn_info"]`). -/
structure Envelope where
  version : Option Int
  key : Option String
  conn_info : Option String
deriving DecidableEq

/-- The library primitives used by `_decode_payload` and `_encrypt`,
abstracted as functions: base64, the envelope and connection-info JSON
codecs, RSA-PKCS1v1.5 under the response manager's key pair, AES-ECB under a
16-byte key, and PKCS7 padding with block size 16.  Byte strings and text
strings are both modelled as `String`.  Fallible decoding steps return
`Option` (`none` models the exception the Python library raises). -/
structure DecodePrims where
  b64decode : String → Option String
  b64encode : String → String
  jsonParseEnv : String → Option Envelope
  jsonDumpEnv : Envelope → String
  rsaDecrypt : String → String
  rsaEncrypt : String → String
  aesDecrypt : String → String → Option String
  aesEncrypt : String → String → String
  pad16 : String → String
  unpad16 : String → Option String
  jsonParseConn : String → Option Conn
  jsonDumpConn : Conn → String

/-- The exception that aborts (or, inside the `try` block, triggers the
legacy fallback of) `_decode_payload`. -/
inductive DecodeErr where
  | outerB64
  | envelopeParse
  | noVersion
  | badVersion (v : Int)
  | missingKey
  | keyB64
  | missingConnInfo
  | connB64
  | aesFailure
  | unpadFailure
  | finalParse
  | keyEncode
deriving DecidableEq

/-- The `try` block of `_decode_payload` for the decoded outer payload:
parse JSON, require a `version` field, and for `version == 1` decrypt the AES
key with RSA and the connection info with AES-ECB, then unpad.  Any failure
is the exception later re-raised if the legacy fallback also fails.  (In the
source the AES cipher object is created from the decrypted key before
`payload["conn_info"]` is read; both failures land in the same `except` arm,
so the model folds cipher construction into `aesDecrypt`.) -/
def tryDecodeV1 (pr : DecodePrims) (payloadStr : String) :
    Except DecodeErr String :=
  match pr.jsonParseEnv payloadStr with
  | none => Except.error DecodeErr.envelopeParse
  | some payload =>
    match payload.version with
    | none => Except.error DecodeErr.noVersion
    | some version =>
      if version = 1 then
        match payload.key with
        | none => Except.error DecodeErr.missingKey
        | some keyField =>
          match pr.b64decode keyField with
          | none => Except.error DecodeErr.keyB64
          | some encryptedAesKey =>
            let aesKey := pr.rsaDecrypt encryptedAesKey
            match payload.conn_info with
            | none => Except.error DecodeErr.missingConnInfo
            | some connField =>
              match pr.b64decode connField with
              | none => Except.error DecodeErr.connB64
              | some encryptedConnectionInfo =>
                match pr.aesDecrypt aesKey encryptedConnectionInfo with
                | none => Except.error DecodeErr.aesFailure
                | some decrypted =>
                  match pr.unpad16 decrypted with
                  | none => Except.error DecodeErr.unpadFailure
                  | some connectionInfoStr => Except.ok connectionInfoStr
      else Except.error (DecodeErr.badVersion version)

/-- Python slicing `s[0:n]` on a text string. -/
def pyTake (s : String) (n : Nat) : String := String.mk (s.toList.take n)

/-- The right brace character, `U+007D`. -/
def rightBrace : Char := Char.ofNat 125

/-- Model of the version-0 custom unpadding
`"".join([decrypted_payload.decode("utf-8").rsplit(rbrace, 1)[0], rbrace])`:
truncate after the last right brace (appending one if none is present). -/
def pyRsplitBrace (l : List Char) : List Char :=
  if l.contains rightBrace then
    ((l.reverse.dropWhile (fun c => c ≠ rightBrace)).reverse).dropLast
      ++ [rightBrace]
  else l ++ [rightBrace]

/-- One iteration of the legacy (version-0) fallback loop of
`_decode_payload`: use the registered kernel id's first 16 characters as an
AES-ECB key (`AES.new` demands a 16-byte key, so shorter ids fail the
attempt), decrypt the whole outer payload, apply the custom trailing-brace
unpadding, parse as JSON, inject the kernel id, and re-serialize; `none`
models the swallowed exception that moves the loop on. -/
def legacyAttempt (pr : DecodePrims) (kernelId payloadStr : String) :
    Option String :=
  let aesKey := pyTake kernelId 16
  if aesKey.length = 16 then
    match pr.aesDecrypt aesKey payloadStr with
    | none => none
    | some decryptedPayload =>
      let connectionInfoStr := String.mk (pyRsplitBrace decryptedPayload.toList)
      match pr.jsonParseConn connectionInfoStr with
      | none => none
      | some newConnectionInfo =>
        some (pr.jsonDumpConn
          (aSet newConnectionInfo "kernel_id" (PVal.str kernelId)))
  else none

/-- The legacy fallback loop of `_decode_payload`: try each registered
kernel id in order; the first successful attempt wins. -/
def legacyScan (pr : DecodePrims) : List String → String → Option String
  | [], _ => none
  | kernelId :: rest, payloadStr =>
    match legacyAttempt pr kernelId payloadStr with
    | some s => some s
    | none => legacyScan pr rest payloadStr

/-- The final `"key"`-to-bytes conversion of `_decode_payload`
(`connection_info["key"] = connection_info["key"].encode()`); `none` models
the `AttributeError` on a non-string value. -/
def keyToBytes (c : Conn) : Option Conn :=
  match aGet c "key" with
  | some (PVal.str s) => some (aSet c "key" (PVal.bytes s))
  | some _ => none
  | none => some c

/-- The common tail of `_decode_payload`: parse the connection-info string as
JSON and convert its `"key"` entry to bytes. -/
def finalizeConnInfo (pr : DecodePrims) (s : String) : Except DecodeErr Conn :=
  match pr.jsonParseConn s with
  | none => Except.error DecodeErr.finalParse
  | some connectionInfo =>
    match keyToBytes connectionInfo with
    | none => Except.error DecodeErr.keyEncode
    | some c => Except.ok c

/-- Model of `ResponseManager._decode_payload`: base64-decode the outer
envelope (failures here propagate — the decode happens before the `try`
block); run the version-aware decode; on any exception run the legacy scan
over the registered kernel ids exactly once, re-raising the triggering
exception when no registrant decrypts; finally parse the connection-info
string and convert the `"key"` entry to bytes. -/
def decodePayload (pr : DecodePrims) (registry : List String) (data : String) :
    Except DecodeErr Conn :=
  match pr.b64decode data with
  | none => Except.error DecodeErr.outerB64
  | some payloadStr =>
    match tryDecodeV1 pr payloadStr with
    | Except.ok s => finalizeConnInfo pr s
    | Except.error e =>
      match legacyScan pr registry payloadStr with
      | some s => finalizeConnInfo pr s
      | none => Except.error e

/-- The version-1 envelope built by the launcher's `_encrypt`:
`{"version": 1, "key": b64(RSA(aes_key)), "conn_info": b64(AES(pad(birthday)))}`. -/
def v1Envelope (pr : DecodePrims) (aesKey : String) (p : Conn) : Envelope :=
  { version := some 1
  , key := some (pr.b64encode (pr.rsaEncrypt aesKey))
  , conn_info := some (pr.b64encode (pr.aesEncrypt aesKey (pr.pad16 (pr.jsonDumpConn p)))) }

/-- Model of `server_listener.py::_encrypt` applied to the serialized
connection info: AES-ECB-encrypt the PKCS7-padded JSON under `aesKey`,
RSA-encrypt `aesKey` under the server's public key, base64 both, wrap in the
version-1 JSON envelope and base64 the whole. -/
def encodePayload (pr : DecodePrims) (aesKey : String) (p : Conn) : String :=
  pr.b64encode (pr.jsonDumpEnv (v1Envelope pr aesKey p))

/-- What `decodePayload` does once the envelope routes to the legacy
fallback: the scan result, finalized, or the triggering exception re-raised. -/
def legacyFallbackResult (pr : DecodePrims) (registry : List String)
    (payloadStr : String) (e : DecodeErr) : Except DecodeErr Conn :=
  match legacyScan pr registry payloadStr with
  | some s => finalizeConnInfo pr s
  | none => Except.error e

/-- A concrete connection-information object used to evaluate the decode
pipeline on closed inputs. -/
def cConn : Conn := [("key", PVal.str "abc"), ("kernel_id", PVal.str "k1")]

/-- A concrete instantiation of the library primitives (identity "ciphers"
and table-based JSON codecs) under which the round-trip laws hold, used to
evaluate the decode pipeline on closed inputs. -/
def cPrims : DecodePrims :=
  { b64decode := fun s => some s
  , b64encode := fun s => s
  , jsonParseEnv := fun s =>
      if s = "ENV" then
        some { version := some 1, key := some "0123456789abcdef"
             , conn_info := some "CONN" }
      else if s = "ENV0" then
        some { version := none, key := none, conn_info := none }
      else none
  , jsonDumpEnv := fun _ => "ENV"
  , rsaDecrypt := fun s => s
  , rsaEncrypt := fun s => s
  , aesDecrypt := fun _ s => some s
  , aesEncrypt := fun _ s => s
  , pad16 := fun s => s
  , unpad16 := fun s => some s
  , jsonParseConn := fun s =>
      if s = "CONN" then some cConn
      else if s = "CONN\x7d" then some cConn
      else none
  , jsonDumpConn := fun _ => "CONN" }

/-! ## `response_manager.py` — `get_connection_info` (lines 136-139) and
`config_mixin.py` timeout constants -/

/-- `GP_POLL_INTERVAL` default (`0.5` seconds). -/
def pollInterval : ℚ := 1 / 2

/-- `connection_interval = poll_interval / 100.0` (line 30-32). -/
def connectionInterval : ℚ := pollInterval / 100

/-- The response registry `_response_registry`: per kernel id, `none` while
the `Response` event is unset, `some c` once `_post_connection` has attached
the payload `c` (which sets the event). -/
abbrev ResponseRegistry := AList (Option Conn)

/-- Outcome of one `get_connection_info(kernel_id)` call. -/
inductive GetConnInfoResult where
  | keyError
  | timeoutError
  | delivered (c : Option Conn) (registry : ResponseRegistry)
deriving DecidableEq

/-- Model of `ResponseManager.get_connection_info`: the registry subscript
raises `KeyError` for an unregistered kernel id; for a registered id,
`asyncio.wait_for(event.wait(), connection_interval)` raises `TimeoutError`
while the event is unset, and otherwise the entry is popped and its response
returned. -/
def getConnectionInfo (registry : ResponseRegistry) (kernelId : String) :
    GetConnInfoResult :=
  match aGet registry kernelId with
  | none => GetConnInfoResult.keyError
  | some none => GetConnInfoResult.timeoutError
  | some (some c) => GetConnInfoResult.delivered (some c) (aRemove registry kernelId)

/-! ## `yarn.py` — `_query_app_by_name` (lines 536-578) -/

/-- A YARN application record as consumed by `_query_app_by_name`: the
`name` field (with the `.get("name", "")` default folded in) and the `id`
field. -/
structure YarnApp where
  name : String
  id : String
deriving DecidableEq

/-- `l₂` begins with `l₁`. -/
def leadsWith : List Char → List Char → Bool
  | [], _ => true
  | _ :: _, [] => false
  | a :: as, b :: bs => a = b && leadsWith as bs

/-- `sub` occurs contiguously in `s`. -/
def hasSub (s sub : List Char) : Bool :=
  match s with
  | [] => sub.isEmpty
  | _ :: rest => leadsWith sub s || hasSub rest sub

/-- Python `s.find(sub) >= 0`: substring containment. -/
def pyFindGe0 (s sub : String) : Bool := hasSub s.toList sub.toList

/-- Python `<` on strings, character-list form: lexicographic comparison by
code point. -/
def pyStrLtAux : List Char → List Char → Bool
  | [], [] => false
  | [], _ :: _ => true
  | _ :: _, [] => false
  | a :: as, b :: bs =>
      if a.toNat < b.toNat then true
      else if b.toNat < a.toNat then false
      else pyStrLtAux as bs

/-- Python `a < b` on strings. -/
def pyStrLt (a b : String) : Bool := pyStrLtAux a.toList b.toList

/-- The selection loop of `_query_app_by_name`: keep the application whose
`name` contains `kernel_id` and whose `id` strictly exceeds the running
`top_most_app_id` (initially `""`). -/
def queryLoop (kernelId : String) :
    List YarnApp → String → Option YarnApp → Option YarnApp
  | [], _, target => target
  | app :: rest, topMostAppId, target =>
      if pyFindGe0 app.name kernelId && pyStrLt topMostAppId app.id then
        queryLoop kernelId rest app.id (some app)
      else queryLoop kernelId rest topMostAppId target

/-- Model of `_query_app_by_name`: `none` for the query-result argument means
`cluster_applications` (already filtered by `started_time_begin`) raised and
the exception was caught — the function logs and returns `None`; otherwise
run the selection loop over the returned applications. -/
def queryAppByName (queryResult : Option (List YarnApp)) (kernelId : String) :
    Option YarnApp :=
  match queryResult with
  | none => none
  | some apps => queryLoop kernelId apps "" none

/-! ## `k8s.py` — `_determine_kernel_pod_name` (lines 229-243) -/

/-- Membership in the regex character class `[0-9a-z]`. -/
def isDnsChar (c : Char) : Bool :=
  (decide ('0' ≤ c) && decide (c ≤ '9')) || (decide ('a' ≤ c) && decide (c ≤ 'z'))

/-- Model of `re.sub("[^0-9a-z]+", "-", s)`: scan the characters, copying
class members and emitting a single `'-'` at the start of each run of
non-members (`inRun` records being inside such a run). -/
def collapseAux : Bool → List Char → List Char
  | _, [] => []
  | inRun, c :: rest =>
      if isDnsChar c then c :: collapseAux false rest
      else if inRun then collapseAux true rest
      else '-' :: collapseAux true rest

/-- A second, spec-worded definition of the same substitution, used to state
the claim's reading: each maximal run of characters outside `[0-9a-z]` is
collapsed to a single `'-'` (the run is consumed with `dropWhile`). -/
def specCollapse : List Char → List Char
  | [] => []
  | c :: rest =>
      if isDnsChar c then c :: specCollapse rest
      else '-' :: specCollapse (rest.dropWhile (fun d => !isDnsChar d))
termination_by l => l.length
decreasing_by
  all_goals simp_wf
  all_goals
    first
      | omega
      | (have h := (List.dropWhile_suffix (l := rest)
            (p := fun d => !isDnsChar d)).length_le
         omega)

/-- `while pod_name.startswith("-"): pod_name = pod_name[1:]`. -/
def stripLeadingDashes (l : List Char) : List Char :=
  l.dropWhile (fun c => c = '-')

/-- `while pod_name.endswith("-"): pod_name = pod_name[:-1]`. -/
def stripTrailingDashes (l : List Char) : List Char :=
  (l.reverse.dropWhile (fun c => c = '-')).reverse

/-- The DNS rewrite applied to the chosen pod name: lowercase, collapse
non-`[0-9a-z]` runs to `'-'`, and trim leading and trailing dashes. -/
def sanitizePodName (s : String) : String :=
  String.mk (stripTrailingDashes (stripLeadingDashes
    (collapseAux false s.toLower.toList)))

/-- Model of `KubernetesProvisioner._determine_kernel_pod_name`: take
`env["KERNEL_POD_NAME"]` when present, else
`f"{kernel_username}-{kernel_id}"`; rewrite for DNS compatibility; write the
result back into the environment; return it together with the updated
environment. -/
def determineKernelPodName (env : Env) (kernelUsername kernelId : String) :
    String × Env :=
  let podName0 :=
    match aGet env "KERNEL_POD_NAME" with
    | some p => p
    | none => kernelUsername ++ "-" ++ kernelId
  let podName := sanitizePodName podName0
  (podName, aSet env "KERNEL_POD_NAME" podName)

/-- The state invariant tying `TrackKernelOnHost` to the set `live` of kernel
ids added and not yet deleted: the mapping's keys are exactly `live` (in
order), every recorded host is truthy, and the counters sum to the number of
live kernels. -/
def TrackInv (t : TrackKernelOnHost) (live : List String) : Prop :=
  t.kernelHostMapping.map Prod.fst = live ∧
  (∀ p ∈ t.kernelHostMapping, p.2 ≠ "") ∧
  counterSum t = (t.kernelHostMapping.length : Int)

/-! # Theorems -/

/-! ## Association-list helper lemmas -/

theorem aGet_aSet_self {α : Type} (l : AList α) (k : String) (v : α) :
    aGet (aSet l k v) k = some v := by
  induction l with
  | nil => simp [aSet, aGet]
  | cons p rest ih =>
      by_cases h : p.1 = k
      · simp [aSet, aGet, h]
      · simp [aSet, aGet, h, ih]

theorem aGet_eq_none_of_not_mem_keys {α : Type} (l : AList α) (k : String)
    (h : k ∉ l.map Prod.fst) : aGet l k = none := by
  induction l with
  | nil => simp [aGet]
  | cons p rest ih =>
      simp only [List.map_cons, List.mem_cons] at h
      push_neg at h
      simp only [aGet]
      rw [if_neg (fun hc => h.1 hc.symm), ih h.2]

theorem mem_keys_of_aGet_eq_some {α : Type} (l : AList α) (k : String) (v : α)
    (h : aGet l k = some v) : k ∈ l.map Prod.fst := by
  induction l with
  | nil => simp [aGet] at h
  | cons p rest ih =>
      simp only [aGet] at h
      by_cases hk : p.1 = k
      · simp [hk]
      · simp only [if_neg hk] at h
        simp [ih h]

theorem mem_of_aGet_eq_some {α : Type} (l : AList α) (k : String) (v : α)
    (h : aGet l k = some v) : (k, v) ∈ l := by
  induction l with
  | nil => simp [aGet] at h
  | cons p rest ih =>
      obtain ⟨a, b⟩ := p
      simp only [aGet] at h
      by_cases hk : a = k
      · simp only [if_pos hk] at h
        obtain rfl := hk
        obtain rfl := Option.some.inj h
        exact List.mem_cons_self _ _
      · simp only [if_neg hk] at h
        exact List.mem_cons_of_mem _ (ih h)

theorem aSet_eq_append_of_aGet_none {α : Type} (l : AList α) (k : String)
    (v : α) (h : aGet l k = none) : aSet l k v = l ++ [(k, v)] := by
  induction l with
  | nil => simp [aSet]
  | cons p rest ih =>
      simp only [aGet] at h
      by_cases hk : p.1 = k
      · simp [hk] at h
      · simp only [if_neg hk] at h
        simp [aSet, hk, ih h]

theorem aRemove_keys {α : Type} (l : AList α) (k : String) :
    (aRemove l k).map Prod.fst = (l.map Prod.fst).erase k := by
  induction l with
  | nil => simp [aRemove]
  | cons p rest ih =>
      by_cases hk : p.1 = k
      · simp [aRemove, hk, List.erase_cons_head]
      · simp only [aRemove, if_neg hk, List.map_cons]
        rw [List.erase_cons_tail, ih]
        simp [hk]

theorem mem_of_mem_aRemove {α : Type} (l : AList α) (k : String)
    (p : String × α) (h : p ∈ aRemove l k) : p ∈ l := by
  induction l with
  | nil => simp [aRemove] at h
  | cons q rest ih =>
      by_cases hk : q.1 = k
      · simp only [aRemove, if_pos hk] at h
        exact List.mem_cons_of_mem _ h
      · simp only [aRemove, if_neg hk, List.mem_cons] at h
        rcases h with h | h
        · simp [h]
        · exact List.mem_cons_of_mem _ (ih h)

/-! ## Claim C2 -/

/-- C2: `pre_launch` denies (and the launch does not proceed) exactly when
the kernel username is a member of `unauthorized_users`, or
`authorized_users` is non-empty and does not contain the kernel username;
membership in `unauthorized_users` is checked first and denies even a user
listed in `authorized_users`; otherwise the launch proceeds with the derived
username. -/
theorem c2_pre_launch_authorization (env : Env) (osUser : String)
    (unauthorizedUsers authorizedUsers : List String) (u : String)
    (hu : u = (aGet env "KERNEL_USERNAME").getD osUser) :
    ((∃ e, preLaunchAuth env osUser unauthorizedUsers authorizedUsers =
        Except.error e) ↔
      (u ∈ unauthorizedUsers ∨
        (authorizedUsers ≠ [] ∧ u ∉ authorizedUsers))) ∧
    (u ∈ unauthorizedUsers →
      preLaunchAuth env osUser unauthorizedUsers authorizedUsers =
        Except.error AuthError.notAuthorized) ∧
    ((u ∉ unauthorizedUsers ∧ (authorizedUsers = [] ∨ u ∈ authorizedUsers)) →
      preLaunchAuth env osUser unauthorizedUsers authorizedUsers =
        Except.ok u) := by
  subst hu
  unfold preLaunchAuth enforceAuthorization
  by_cases h1 : (aGet env "KERNEL_USERNAME").getD osUser ∈ unauthorizedUsers
  · simp [h1]
  · by_cases h2 : authorizedUsers = []
    · simp [h1, h2]
    · by_cases h3 : (aGet env "KERNEL_USERNAME").getD osUser ∈ authorizedUsers
      · simp [h1, h2, h3]
      · simp [h1, h2, h3, List.length_pos]

/-- Witness for C2 at concrete inputs: the user `root` is denied through the
`unauthorized_users` check even though listed in `authorized_users`. -/
theorem c2_pre_launch_authorization_witness :
    preLaunchAuth [("KERNEL_USERNAME", "root")] "jovyan" ["root"]
        ["root", "alice"] = Except.error AuthError.notAuthorized :=
  (c2_pre_launch_authorization [("KERNEL_USERNAME", "root")] "jovyan"
    ["root"] ["root", "alice"] "root" (by decide)).2.1 (by decide)

/-! ## Claim C5 -/

/-- C5: for a `port_range` string whose two `..`-separated endpoints parse as
integers `lo` and `hi`, validation fails whenever the range size `hi - lo` is
non-zero but below 1000 and whenever the size is non-zero and an endpoint
lies outside `[1024, 65535]`; a zero-size range is accepted and returns the
parsed bounds, as is any non-zero-size range of size at least 1000 with both
endpoints in bounds. -/
theorem c5_port_range_validation (portRange s0 s1 : String) (lo hi : Int)
    (h0 : (splitOnDotDot portRange).getD 0 "" = s0)
    (h1 : (splitOnDotDot portRange).get? 1 = some s1)
    (hlo : pyInt s0 = some lo) (hhi : pyInt s1 = some hi) :
    (hi - lo ≠ 0 → hi - lo < 1000 →
      validatePortRange portRange =
        Except.error PortRangeError.rangeSizeTooSmall) ∧
    (hi - lo ≠ 0 → (lo < 1024 ∨ lo > 65535 ∨ hi < 1024 ∨ hi > 65535) →
      ∃ e, validatePortRange portRange = Except.error e) ∧
    (hi - lo = 0 → validatePortRange portRange = Except.ok (lo, hi)) ∧
    (hi - lo ≠ 0 → 1000 ≤ hi - lo → 1024 ≤ lo → lo ≤ 65535 → 1024 ≤ hi →
      hi ≤ 65535 → validatePortRange portRange = Except.ok (lo, hi)) := by
  simp only [validatePortRange, minPortRangeSize, h0, hlo, h1, hhi]
  refine ⟨?_, ?_, ?_, ?_⟩
  · intro hne hsmall
    split_ifs <;> first | rfl | (exfalso; omega)
  · intro hne hout
    split_ifs <;> first | exact ⟨_, rfl⟩ | (exfalso; omega)
  · intro hz
    split_ifs <;> first | rfl | (exfalso; omega)
  · intro hne hge hlo1 hlo2 hhi1 hhi2
    split_ifs <;> first | rfl | (exfalso; omega)

/-- Witness for C5 at concrete inputs: the default `"0..0"` is accepted with
bounds `(0, 0)`, and `"1024..1500"` (size 476) is rejected for being too
small. -/
theorem c5_port_range_validation_witness :
    validatePortRange "0..0" = Except.ok (0, 0) ∧
    validatePortRange "1024..1500" =
      Except.error PortRangeError.rangeSizeTooSmall :=
  ⟨(c5_port_range_validation "0..0" "0" "0" 0 0 (by decide) (by decide)
      (by decide) (by decide)).2.2.1 (by decide),
   (c5_port_range_validation "1024..1500" "1024" "1500" 1024 1500 (by decide)
      (by decide) (by decide) (by decide)).1 (by decide) (by decide)⟩

/-! ## Claims C6 and C10 -/

theorem runLaunches_no_override (hosts : List String) (envs : List Env)
    (hno : ∀ e ∈ envs, aGet e "KERNEL_REMOTE_HOST" = none) :
    ∀ idx k, k < envs.length →
      (runLaunches hosts idx envs).get? k =
        some (hosts.getD ((idx + k) % hosts.length) "") := by
  induction envs with
  | nil => intro idx k hk; simp at hk
  | cons e rest ih =>
      intro idx k hk
      have he : aGet e "KERNEL_REMOTE_HOST" = none := hno e (by simp)
      have hrest : ∀ x ∈ rest, aGet x "KERNEL_REMOTE_HOST" = none :=
        fun x hx => hno x (List.mem_cons_of_mem _ hx)
      cases k with
      | zero =>
          simp [runLaunches, determineNextHostRR, he, pyTruthy]
      | succ k' =>
          have hk' : k' < rest.length := by simpa using hk
          have := ih hrest (idx + 1) k' hk'
          simp only [runLaunches, determineNextHostRR, he, pyTruthy]
          simp only [List.get?_cons_succ]
          have heq : idx + 1 + k' = idx + (k' + 1) := by omega
          rw [heq] at this
          exact this

/-- C6: starting from the initial shared `host_index = 0`, a sequence of
round-robin launches none of which supplies `env.KERNEL_REMOTE_HOST` assigns
the `k`-th launch the host `H(k mod n)` — the index grows by exactly one per
launch and is reduced modulo `len(remote_hosts)` — while any launch whose env
carries a non-empty `KERNEL_REMOTE_HOST` is assigned that host instead,
bypassing the rotation. -/
theorem c6_round_robin (hosts : List String) (envs : List Env) (k : Nat)
    (hne : hosts ≠ [])
    (hno : ∀ e ∈ envs, aGet e "KERNEL_REMOTE_HOST" = none)
    (hk : k < envs.length) :
    (∃ hlt : k % hosts.length < hosts.length,
      (runLaunches hosts 0 envs).get? k = some (hosts.get ⟨k % hosts.length, hlt⟩)) ∧
    (∀ env h idx, aGet env "KERNEL_REMOTE_HOST" = some h → h ≠ "" →
      determineNextHostRR hosts idx env = (h, idx + 1)) := by
  constructor
  · have hlen : 0 < hosts.length := List.length_pos.mpr hne
    refine ⟨Nat.mod_lt _ hlen, ?_⟩
    have := runLaunches_no_override hosts envs hno 0 k hk
    rw [this]
    congr 1
    rw [List.getD_eq_getElem?_getD]
    rw [List.getElem?_eq_getElem (Nat.mod_lt _ hlen)]
    simp [List.get_eq_getElem]
  · intro env h idx hov hne'
    simp [determineNextHostRR, hov, pyTruthy, hne']

/-- Witness for C6: three launches over `["h1", "h2", "h3"]` with empty envs
assign `h2` to the launch of index 1, and an override env is honored. -/
theorem c6_round_robin_witness :
    (∃ hlt : 1 % 3 < 3,
      (runLaunches ["h1", "h2", "h3"] 0 [[], [], []]).get? 1 =
        some (["h1", "h2", "h3"].get ⟨1 % 3, hlt⟩)) ∧
    (∀ env h idx, aGet env "KERNEL_REMOTE_HOST" = some h → h ≠ "" →
      determineNextHostRR ["h1", "h2", "h3"] idx env = (h, idx + 1)) :=
  c6_round_robin ["h1", "h2", "h3"] [[], [], []] 1 (by decide)
    (by intro e he; fin_cases he <;> rfl) (by decide)

/-- C10: every round-robin `_determine_next_host` call increments the shared
`host_index` by exactly one, including calls resolved by the
`KERNEL_REMOTE_HOST` override; consequently, after an overridden launch at
index `idx`, the next launch without an override receives
`hosts[(idx + 1) % n]` — the host at the skipped index `idx` is not
compensated for. -/
theorem c10_override_still_increments (hosts : List String) (idx : Nat)
    (env : Env) :
    ((determineNextHostRR hosts idx env).2 = idx + 1) ∧
    (∀ h env2, aGet env "KERNEL_REMOTE_HOST" = some h → h ≠ "" →
      aGet env2 "KERNEL_REMOTE_HOST" = none →
      runLaunches hosts idx [env, env2] =
        [h, hosts.getD ((idx + 1) % hosts.length) ""]) := by
  constructor
  · rfl
  · intro h env2 hov hne' hno2
    simp [runLaunches, determineNextHostRR, hov, hno2, pyTruthy, hne']

/-- Witness for C10: with hosts `["h1", "h2"]` and index 0, an overridden
launch still bumps the index, and the following launch gets `h2` (index 1),
skipping `h1`. -/
theorem c10_override_still_increments_witness :
    ((determineNextHostRR ["h1", "h2"] 0 [("KERNEL_REMOTE_HOST", "other")]).2 =
      0 + 1) ∧
    runLaunches ["h1", "h2"] 0 [[("KERNEL_REMOTE_HOST", "other")], []] =
      ["other", ["h1", "h2"].getD ((0 + 1) % 2) ""] :=
  ⟨(c10_override_still_increments ["h1", "h2"] 0
      [("KERNEL_REMOTE_HOST", "other")]).1,
   (c10_override_still_increments ["h1", "h2"] 0
      [("KERNEL_REMOTE_HOST", "other")]).2 "other" [] (by decide) (by decide)
      (by decide)⟩

/-! ## Claim C7 -/

theorem aGet_ne_none_of_mem_keys {α : Type} (l : AList α) (k : String)
    (h : k ∈ l.map Prod.fst) : aGet l k ≠ none := by
  induction l with
  | nil => simp at h
  | cons p rest ih =>
      simp only [List.map_cons, List.mem_cons] at h
      simp only [aGet]
      by_cases hk : p.1 = k
      · simp [hk]
      · rcases h with h | h
        · exact absurd h.symm hk
        · simpa [hk] using ih h

theorem sum_aSet_adjust (l : AList Int) (k : String) (d : Int) :
    ((aSet l k ((aGet l k).getD 0 + d)).map Prod.snd).sum =
      (l.map Prod.snd).sum + d := by
  induction l with
  | nil => simp [aSet, aGet]
  | cons p rest ih =>
      by_cases hk : p.1 = k
      · simp only [aGet, if_pos hk, aSet, Option.getD_some, List.map_cons,
          List.sum_cons]
        ring
      · simp only [aGet, if_neg hk, aSet, List.map_cons, List.sum_cons, ih]
        ring

theorem counterSum_increment (t : TrackKernelOnHost) (host : String) :
    counterSum (increment t host) = counterSum t + 1 := by
  simpa [increment, counterSum] using
    sum_aSet_adjust t.hostKernels host 1

theorem counterSum_decrement (t : TrackKernelOnHost) (host : String) :
    counterSum (decrement t host) = counterSum t - 1 := by
  have h := sum_aSet_adjust t.hostKernels host (-1)
  simpa [decrement, counterSum, sub_eq_add_neg] using h

theorem trackInv_addKernelId (t : TrackKernelOnHost) (live : List String)
    (host kid : String) (hinv : TrackInv t live) (hhost : host ≠ "")
    (hfresh : kid ∉ live) : TrackInv (addKernelId t host kid) (live ++ [kid]) := by
  obtain ⟨hkeys, hvals, hsum⟩ := hinv
  have hget : aGet t.kernelHostMapping kid = none :=
    aGet_eq_none_of_not_mem_keys _ _ (by rw [hkeys]; exact hfresh)
  have hset : aSet t.kernelHostMapping kid host =
      t.kernelHostMapping ++ [(kid, host)] :=
    aSet_eq_append_of_aGet_none _ _ _ hget
  refine ⟨?_, ?_, ?_⟩
  · simp [addKernelId, increment, hset, hkeys]
  · intro p hp
    simp only [addKernelId, increment, hset] at hp
    simp only [List.mem_append, List.mem_singleton] at hp
    rcases hp with hp | hp
    · exact hvals p hp
    · simp [hp, hhost]
  · have h1 : counterSum (addKernelId t host kid) = counterSum t + 1 := by
      rw [addKernelId, counterSum_increment]
      simp [counterSum]
    have h2 : (addKernelId t host kid).kernelHostMapping =
        t.kernelHostMapping ++ [(kid, host)] := by
      simp [addKernelId, increment, hset]
    rw [h1, h2, hsum]
    simp only [List.length_append, List.length_singleton]
    push_cast
    ring

theorem trackInv_deleteKernelId (t : TrackKernelOnHost) (live : List String)
    (kid : String) (hinv : TrackInv t live) :
    TrackInv (deleteKernelId t kid) (live.erase kid) := by
  obtain ⟨hkeys, hvals, hsum⟩ := hinv
  cases hget : aGet t.kernelHostMapping kid with
  | none =>
      have hd : deleteKernelId t kid = t := by simp [deleteKernelId, hget]
      have hnk : kid ∉ live := by
        rw [← hkeys]
        intro hmem
        exact aGet_ne_none_of_mem_keys _ _ hmem hget
      rw [hd, List.erase_of_not_mem hnk]
      exact ⟨hkeys, hvals, hsum⟩
  | some host =>
      have hmemp : (kid, host) ∈ t.kernelHostMapping :=
        mem_of_aGet_eq_some _ _ _ hget
      have hhost : host ≠ "" := hvals _ hmemp
      have hd : deleteKernelId t kid =
          { decrement t host with
            kernelHostMapping := aRemove (decrement t host).kernelHostMapping kid } := by
        simp [deleteKernelId, hget, hhost]
      rw [hd]
      have hmemk : kid ∈ t.kernelHostMapping.map Prod.fst :=
        mem_keys_of_aGet_eq_some _ _ _ hget
      refine ⟨?_, ?_, ?_⟩
      · simp only [decrement]
        rw [aRemove_keys, hkeys]
      · intro p hp
        simp only [decrement] at hp
        exact hvals p (mem_of_mem_aRemove _ _ _ hp)
      · have hlen : (aRemove t.kernelHostMapping kid).length =
            t.kernelHostMapping.length - 1 := by
          have h1 : (aRemove t.kernelHostMapping kid).length =
              ((aRemove t.kernelHostMapping kid).map Prod.fst).length := by
            simp
          rw [h1, aRemove_keys]
          rw [List.length_erase_of_mem hmemk]
          simp
        have hpos : 1 ≤ t.kernelHostMapping.length :=
          List.length_pos.mpr (List.ne_nil_of_mem hmemp)
        have hdec : counterSum (decrement t host) = counterSum t - 1 :=
          counterSum_decrement t host
        simp only [counterSum, decrement] at hdec hsum ⊢
        rw [hlen, hdec, hsum]
        push_cast [hpos]
        ring

theorem trackInv_runTrackOps (ops : List TrackOp) :
    ∀ (live : List String) (t : TrackKernelOnHost), TrackInv t live →
      validOps live ops →
      TrackInv (runTrackOps t ops) (liveKernelIds live ops) := by
  induction ops with
  | nil => intro live t hinv _; exact hinv
  | cons op rest ih =>
      intro live t hinv hvalid
      cases op with
      | add host kid =>
          obtain ⟨h1, h2, h3⟩ := hvalid
          exact ih _ _ (trackInv_addKernelId t live host kid hinv h1 h2) h3
      | del kid =>
          exact ih _ _ (trackInv_deleteKernelId t live kid hinv) hvalid

theorem find_congr_on {α : Type} (l : List α) (p q : α → Bool)
    (h : ∀ x ∈ l, p x = q x) : l.find? p = l.find? q := by
  induction l with
  | nil => rfl
  | cons a rest ih =>
      have ha : p a = q a := h a (by simp)
      cases hq : q a with
      | true =>
          rw [List.find?_cons_of_pos _ (ha ▸ hq), List.find?_cons_of_pos _ hq]
      | false =>
          rw [List.find?_cons_of_neg _ (by simp [ha, hq]),
            List.find?_cons_of_neg _ (by simp [hq])]
          exact ih (fun x hx => h x (List.mem_cons_of_mem _ hx))

theorem minFold_eq_firstMinKey (rest : AList Int) :
    ∀ (k : String) (v : Int),
      some (minFold rest k v).1 = firstMinKey ((k, v) :: rest) := by
  induction rest with
  | nil =>
      intro k v
      simp [minFold, firstMinKey]
  | cons p tl ih =>
      intro k v
      obtain ⟨k2, v2⟩ := p
      by_cases hlt : v2 < v
      · have hstep : minFold ((k2, v2) :: tl) k v = minFold tl k2 v2 := by
          simp [minFold, hlt]
        rw [hstep, ih k2 v2]
        unfold firstMinKey
        rw [List.find?_cons_of_neg _ (p := fun (x : String × Int) =>
            ((k, v) :: (k2, v2) :: tl).all (fun q => decide (x.2 ≤ q.2))) (by
          simp only [List.all_cons, Bool.and_eq_true, decide_eq_true_eq]
          intro hc
          exact absurd hc.2.1 (not_le.mpr hlt))]
        rw [find_congr_on ((k2, v2) :: tl)
          (fun p => ((k, v) :: (k2, v2) :: tl).all (fun q => decide (p.2 ≤ q.2)))
          (fun p => ((k2, v2) :: tl).all (fun q => decide (p.2 ≤ q.2))) (by
            intro x _
            rw [Bool.eq_iff_iff]
            simp only [List.all_cons, Bool.and_eq_true, decide_eq_true_eq]
            constructor
            · rintro ⟨_, hrest⟩
              exact hrest
            · rintro ⟨hxv2, hall⟩
              exact ⟨le_of_lt (lt_of_le_of_lt hxv2 hlt), hxv2, hall⟩)]
      · have hge : v ≤ v2 := not_lt.mp hlt
        have hstep : minFold ((k2, v2) :: tl) k v = minFold tl k v := by
          simp [minFold, hlt]
        rw [hstep, ih k v]
        unfold firstMinKey
        cases hall : tl.all (fun q => decide (v ≤ q.2)) with
        | true =>
            rw [List.find?_cons_of_pos _ (p := fun (x : String × Int) =>
                ((k, v) :: (k2, v2) :: tl).all (fun q => decide (x.2 ≤ q.2))) (by
              simp only [List.all_cons, Bool.and_eq_true, decide_eq_true_eq]
              exact ⟨le_refl v, hge, hall⟩)]
            rw [List.find?_cons_of_pos _ (p := fun (x : String × Int) =>
                ((k, v) :: tl).all (fun q => decide (x.2 ≤ q.2))) (by
              simp only [List.all_cons, Bool.and_eq_true, decide_eq_true_eq]
              exact ⟨le_refl v, hall⟩)]
        | false =>
            rw [List.find?_cons_of_neg _ (p := fun (x : String × Int) =>
                ((k, v) :: tl).all (fun q => decide (x.2 ≤ q.2))) (by
              simp only [List.all_cons, Bool.and_eq_true, decide_eq_true_eq]
              intro hc
              rw [hc.2] at hall
              exact Bool.true_eq_false.mp hall)]
            rw [List.find?_cons_of_neg _ (p := fun (x : String × Int) =>
                ((k, v) :: (k2, v2) :: tl).all (fun q => decide (x.2 ≤ q.2))) (by
              simp only [List.all_cons, Bool.and_eq_true, decide_eq_true_eq]
              intro hc
              rw [hc.2.2] at hall
              exact Bool.true_eq_false.mp hall)]
            rw [List.find?_cons_of_neg _ (p := fun (x : String × Int) =>
                ((k, v) :: (k2, v2) :: tl).all (fun q => decide (x.2 ≤ q.2))) (by
              simp only [List.all_cons, Bool.and_eq_true, decide_eq_true_eq]
              intro hc
              have hv2 : v2 = v := le_antisymm hc.1 hge
              have hc' := hc.2.2
              rw [hv2] at hc'
              rw [hc'] at hall
              exact Bool.true_eq_false.mp hall)]
            rw [find_congr_on tl
              (fun p => ((k, v) :: (k2, v2) :: tl).all (fun q => decide (p.2 ≤ q.2)))
              (fun p => ((k, v) :: tl).all (fun q => decide (p.2 ≤ q.2))) (by
                intro x _
                rw [Bool.eq_iff_iff]
                simp only [List.all_cons, Bool.and_eq_true, decide_eq_true_eq]
                constructor
                · rintro ⟨hxv, _, hrest⟩
                  exact ⟨hxv, hrest⟩
                · rintro ⟨hxv, hrest⟩
                  exact ⟨hxv, le_trans hxv hge, hrest⟩)]

/-- C7: over any sequence of `add_kernel_id` / `delete_kernel_id` operations
starting from the empty tracker (kernel ids fresh at each add and hosts
non-empty, per the provisioner's usage — one active lifecycle per UUID kernel
id), the per-host counters sum to the number of kernel ids added and not yet
deleted; and `min_or_remote_host` without an override returns the first host
(in counter-map insertion order) whose count is minimal among all tracked
hosts. -/
theorem c7_least_connection_tracker :
    (∀ ops, validOps [] ops →
      counterSum (runTrackOps ⟨[], []⟩ ops) =
        ((liveKernelIds [] ops).length : Int)) ∧
    (∀ t : TrackKernelOnHost, t.hostKernels ≠ [] →
      minOrRemoteHost t none = firstMinKey t.hostKernels) := by
  constructor
  · intro ops hvalid
    have hinv : TrackInv ⟨[], []⟩ [] := by
      refine ⟨rfl, ?_, rfl⟩
      intro p hp
      simp at hp
    have h := trackInv_runTrackOps ops [] ⟨[], []⟩ hinv hvalid
    obtain ⟨hkeys, _, hsum⟩ := h
    rw [hsum]
    congr 1
    rw [← hkeys]
    simp
  · intro t hne
    simp only [minOrRemoteHost, pyTruthy, Bool.false_eq_true, if_false]
    cases ht : t.hostKernels with
    | nil => exact absurd ht hne
    | cons p rest =>
        obtain ⟨k, v⟩ := p
        simp only [pyMinByVal]
        exact minFold_eq_firstMinKey rest k v

/-- Witness for C7: two adds and one delete leave the counters summing to 1,
and the minimum host over `[("h1", 2), ("h2", 1), ("h3", 1)]` is `h2` (first
of the tied hosts). -/
theorem c7_least_connection_tracker_witness :
    counterSum (runTrackOps ⟨[], []⟩
        [TrackOp.add "h1" "k1", TrackOp.add "h2" "k2", TrackOp.del "k1"]) =
      ((liveKernelIds []
        [TrackOp.add "h1" "k1", TrackOp.add "h2" "k2", TrackOp.del "k1"]).length
          : Int) ∧
    minOrRemoteHost ⟨[("h1", 2), ("h2", 1), ("h3", 1)], []⟩ none =
      firstMinKey [("h1", 2), ("h2", 1), ("h3", 1)] :=
  ⟨c7_least_connection_tracker.1
      [TrackOp.add "h1" "k1", TrackOp.add "h2" "k2", TrackOp.del "k1"]
      (by simp [validOps]),
   c7_least_connection_tracker.2 ⟨[("h1", 2), ("h2", 1), ("h3", 1)], []⟩
      (by decide)⟩

/-! ## Claim C9 -/

theorem collapseAux_eq_specCollapse :
    ∀ (n : Nat) (l : List Char), l.length ≤ n →
      collapseAux false l = specCollapse l ∧
      collapseAux true l = specCollapse (l.dropWhile (fun d => !isDnsChar d)) := by
  intro n
  induction n with
  | zero =>
      intro l hl
      have : l = [] := List.length_eq_zero.mp (Nat.le_zero.mp hl)
      subst this
      simp [collapseAux, specCollapse]
  | succ n ih =>
      intro l hl
      cases l with
      | nil => simp [collapseAux, specCollapse]
      | cons c rest =>
          have hrest : rest.length ≤ n := by
            simp only [List.length_cons] at hl
            omega
          by_cases hc : isDnsChar c = true
          · constructor
            · rw [show collapseAux false (c :: rest) = c :: collapseAux false rest
                from by simp [collapseAux, hc]]
              rw [show specCollapse (c :: rest) = c :: specCollapse rest
                from by rw [specCollapse]; simp [hc]]
              rw [(ih rest hrest).1]
            · rw [show collapseAux true (c :: rest) = c :: collapseAux false rest
                from by simp [collapseAux, hc]]
              rw [show (c :: rest).dropWhile (fun d => !isDnsChar d) = c :: rest
                from by simp [List.dropWhile_cons, hc]]
              rw [show specCollapse (c :: rest) = c :: specCollapse rest
                from by rw [specCollapse]; simp [hc]]
              rw [(ih rest hrest).1]
          · constructor
            · rw [show collapseAux false (c :: rest) = '-' :: collapseAux true rest
                from by simp [collapseAux, hc]]
              rw [show specCollapse (c :: rest) =
                  '-' :: specCollapse (rest.dropWhile (fun d => !isDnsChar d))
                from by rw [specCollapse]; simp [hc]]
              rw [(ih rest hrest).2]
            · rw [show collapseAux true (c :: rest) = collapseAux true rest
                from by simp [collapseAux, hc]]
              rw [show (c :: rest).dropWhile (fun d => !isDnsChar d) =
                  rest.dropWhile (fun d => !isDnsChar d)
                from by simp [List.dropWhile_cons, hc]]
              exact (ih rest hrest).2

theorem mem_collapseAux :
    ∀ (l : List Char) (b : Bool) (c : Char), c ∈ collapseAux b l →
      isDnsChar c = true ∨ c = '-' := by
  intro l
  induction l with
  | nil => intro b c hc; simp [collapseAux] at hc
  | cons a rest ih =>
      intro b c hc
      by_cases ha : isDnsChar a = true
      · rw [show collapseAux b (a :: rest) = a :: collapseAux false rest
          from by cases b <;> simp [collapseAux, ha]] at hc
        rcases List.mem_cons.mp hc with h | h
        · exact Or.inl (h ▸ ha)
        · exact ih false c h
      · cases b with
        | false =>
            rw [show collapseAux false (a :: rest) = '-' :: collapseAux true rest
              from by simp [collapseAux, ha]] at hc
            rcases List.mem_cons.mp hc with h | h
            · exact Or.inr h
            · exact ih true c h
        | true =>
            rw [show collapseAux true (a :: rest) = collapseAux true rest
              from by simp [collapseAux, ha]] at hc
            exact ih true c hc

theorem dropWhile_head_not {α : Type} (p : α → Bool) :
    ∀ (l : List α) (c : α) (rest : List α), l.dropWhile p = c :: rest →
      p c = false := by
  intro l
  induction l with
  | nil => intro c rest h; simp [List.dropWhile] at h
  | cons a tl ih =>
      intro c rest h
      by_cases ha : p a = true
      · rw [List.dropWhile_cons_of_pos ha] at h
        exact ih c rest h
      · rw [List.dropWhile_cons_of_neg ha] at h
        obtain rfl := (List.cons.injEq _ _ _ _ ▸ h).1
        exact Bool.not_eq_true _ ▸ ha

theorem stripTrailingDashes_isPrefix (l : List Char) :
    stripTrailingDashes l <+: l := by
  have h1 : l.reverse.dropWhile (fun c => decide (c = '-')) <:+ l.reverse :=
    List.dropWhile_suffix _
  have h2 := List.reverse_prefix.mpr h1
  rwa [List.reverse_reverse] at h2

/-- C9: `_determine_kernel_pod_name` returns the sanitization of
`env.KERNEL_POD_NAME` when provided — else of
`"<kernel_username>-<kernel_id>"` — where sanitizing lowercases the name,
collapses every maximal run of characters outside `[0-9a-z]` to a single
`'-'`, and trims leading and trailing dashes (so the result draws on
`[0-9a-z-]` only and neither starts nor ends with `'-'`); the result is also
written back into the environment under `KERNEL_POD_NAME`. -/
theorem c9_pod_name (env : Env) (kernelUsername kernelId base : String)
    (hbase : base = (match aGet env "KERNEL_POD_NAME" with
      | some p => p
      | none => kernelUsername ++ "-" ++ kernelId)) :
    (determineKernelPodName env kernelUsername kernelId).1 =
      sanitizePodName base ∧
    (sanitizePodName base).toList =
      stripTrailingDashes (stripLeadingDashes
        (specCollapse base.toLower.toList)) ∧
    (∀ c ∈ (sanitizePodName base).toList, isDnsChar c = true ∨ c = '-') ∧
    (∀ c, (sanitizePodName base).toList.head? = some c → c ≠ '-') ∧
    (∀ c, (sanitizePodName base).toList.getLast? = some c → c ≠ '-') ∧
    aGet (determineKernelPodName env kernelUsername kernelId).2
        "KERNEL_POD_NAME" =
      some (determineKernelPodName env kernelUsername kernelId).1 := by
  have hmk : ∀ l : List Char, (String.mk l).toList = l := fun l => rfl
  have hcoll := collapseAux_eq_specCollapse base.toLower.toList.length
    base.toLower.toList (le_refl _)
  refine ⟨?_, ?_, ?_, ?_, ?_, ?_⟩
  · rw [determineKernelPodName, hbase]
  · rw [sanitizePodName, hmk, hcoll.1]
  · intro c hc
    rw [sanitizePodName, hmk] at hc
    have hc1 : c ∈ stripLeadingDashes (collapseAux false base.toLower.toList) :=
      (stripTrailingDashes_isPrefix _).subset hc
    have hc2 : c ∈ collapseAux false base.toLower.toList :=
      (List.dropWhile_suffix _).subset hc1
    exact mem_collapseAux _ false c hc2
  · intro c hc
    rw [sanitizePodName, hmk] at hc
    set m1 := stripLeadingDashes (collapseAux false base.toLower.toList) with hm1
    obtain ⟨t, ht⟩ := stripTrailingDashes_isPrefix m1
    cases hs : stripTrailingDashes m1 with
    | nil => rw [hs] at hc; simp at hc
    | cons c0 rest0 =>
        rw [hs] at hc
        simp only [List.head?_cons, Option.some.injEq] at hc
        rw [hs] at ht
        have hm1c : m1 = c0 :: (rest0 ++ t) := by rw [← ht]; simp
        have hne := dropWhile_head_not (fun ch => decide (ch = '-'))
          (collapseAux false base.toLower.toList) c0 (rest0 ++ t)
          (by rw [← hm1c, hm1]; rfl)
        rw [← hc]
        simpa using hne
  · intro c hc
    rw [sanitizePodName, hmk] at hc
    rw [stripTrailingDashes] at hc
    rw [List.getLast?_reverse] at hc
    set m1 := stripLeadingDashes (collapseAux false base.toLower.toList)
    cases hs : m1.reverse.dropWhile (fun ch => decide (ch = '-')) with
    | nil => rw [hs] at hc; simp at hc
    | cons c0 rest0 =>
        rw [hs] at hc
        simp only [List.head?_cons, Option.some.injEq] at hc
        have hne := dropWhile_head_not (fun ch => decide (ch = '-'))
          m1.reverse c0 rest0 hs
        rw [← hc]
        simpa using hne
  · rw [determineKernelPodName]
    exact aGet_aSet_self env "KERNEL_POD_NAME" _

/-- Witness for C9 at a concrete input: username `Alice.B` and kernel id
`42!!x` yield pod name `alice-b-42-x`, written back to the env. -/
theorem c9_pod_name_witness :
    (determineKernelPodName [] "Alice.B" "42!!x").1 =
      sanitizePodName "Alice.B-42!!x" ∧
    aGet (determineKernelPodName [] "Alice.B" "42!!x").2 "KERNEL_POD_NAME" =
      some (determineKernelPodName [] "Alice.B" "42!!x").1 :=
  ⟨(c9_pod_name [] "Alice.B" "42!!x" "Alice.B-42!!x" rfl).1,
   (c9_pod_name [] "Alice.B" "42!!x" "Alice.B-42!!x" rfl).2.2.2.2.2⟩

/-! ## Claim C8 -/

theorem pyStrLtAux_irrefl : ∀ l : List Char, pyStrLtAux l l = false := by
  intro l
  induction l with
  | nil => rfl
  | cons a rest ih => simp [pyStrLtAux, ih]

theorem pyStrLtAux_trans :
    ∀ (a b c : List Char), pyStrLtAux a b = true → pyStrLtAux b c = true →
      pyStrLtAux a c = true := by
  intro a
  induction a with
  | nil =>
      intro b c hab hbc
      cases b with
      | nil => simp [pyStrLtAux] at hab
      | cons y ys =>
          cases c with
          | nil => simp [pyStrLtAux] at hbc
          | cons z zs => simp [pyStrLtAux]
  | cons x xs ih =>
      intro b c hab hbc
      cases b with
      | nil => simp [pyStrLtAux] at hab
      | cons y ys =>
          cases c with
          | nil => simp [pyStrLtAux] at hbc
          | cons z zs =>
              simp only [pyStrLtAux] at hab hbc ⊢
              by_cases hxy : x.toNat < y.toNat
              · by_cases hyz : y.toNat < z.toNat
                · rw [if_pos (show x.toNat < z.toNat by omega)]
                · by_cases hzy : z.toNat < y.toNat
                  · rw [if_neg hyz, if_pos hzy] at hbc
                    simp at hbc
                  · rw [if_pos (show x.toNat < z.toNat by omega)]
              · by_cases hyx : y.toNat < x.toNat
                · rw [if_neg hxy, if_pos hyx] at hab
                  simp at hab
                · rw [if_neg hxy, if_neg hyx] at hab
                  by_cases hyz : y.toNat < z.toNat
                  · rw [if_pos (show x.toNat < z.toNat by omega)]
                  · by_cases hzy : z.toNat < y.toNat
                    · rw [if_neg hyz, if_pos hzy] at hbc
                      simp at hbc
                    · rw [if_neg hyz, if_neg hzy] at hbc
                      rw [if_neg (show ¬x.toNat < z.toNat by omega),
                        if_neg (show ¬z.toNat < x.toNat by omega)]
                      exact ih ys zs hab hbc

theorem pyStrLtAux_asymm (a b : List Char) (h : pyStrLtAux a b = true) :
    pyStrLtAux b a = false := by
  cases hba : pyStrLtAux b a with
  | false => rfl
  | true =>
      have := pyStrLtAux_trans a b a h hba
      rw [pyStrLtAux_irrefl a] at this
      exact absurd this (by simp)

theorem queryLoop_spec (kid : String) :
    ∀ (apps : List YarnApp) (top : String) (target : Option YarnApp),
      (queryLoop kid apps top target = target ∧
        ∀ b ∈ apps, pyFindGe0 b.name kid = true → pyStrLt top b.id = false) ∨
      (∃ a ∈ apps, queryLoop kid apps top target = some a ∧
        pyFindGe0 a.name kid = true ∧ pyStrLt top a.id = true ∧
        ∀ b ∈ apps, pyFindGe0 b.name kid = true →
          pyStrLt a.id b.id = false) := by
  intro apps
  induction apps with
  | nil =>
      intro top target
      left
      exact ⟨rfl, by simp⟩
  | cons app rest ih =>
      intro top target
      cases hc : (pyFindGe0 app.name kid && pyStrLt top app.id) with
      | true =>
          obtain ⟨hm, hlt⟩ := Bool.and_eq_true_iff.mp hc
          have hq : queryLoop kid (app :: rest) top target =
              queryLoop kid rest app.id (some app) := by
            simp [queryLoop, hc]
          rcases ih app.id (some app) with ⟨h1, h2⟩ | ⟨a, ha, h1, h2, h3, h4⟩
          · right
            refine ⟨app, List.mem_cons_self _ _, by rw [hq, h1], hm, hlt, ?_⟩
            intro b hb hmb
            rcases List.mem_cons.mp hb with rfl | hb'
            · exact pyStrLtAux_irrefl _
            · exact h2 b hb' hmb
          · right
            refine ⟨a, List.mem_cons_of_mem _ ha, by rw [hq, h1], h2,
              pyStrLtAux_trans _ _ _ hlt h3, ?_⟩
            intro b hb hmb
            rcases List.mem_cons.mp hb with rfl | hb'
            · exact pyStrLtAux_asymm _ _ h3
            · exact h4 b hb' hmb
      | false =>
          have hq : queryLoop kid (app :: rest) top target =
              queryLoop kid rest top target := by
            simp [queryLoop, hc]
          have happ : pyFindGe0 app.name kid = true → pyStrLt top app.id = false := by
            intro hmb
            rcases Bool.and_eq_false_iff.mp hc with h | h
            · exact absurd hmb (by simp [h])
            · exact h
          rcases ih top target with ⟨h1, h2⟩ | ⟨a, ha, h1, h2, h3, h4⟩
          · left
            refine ⟨by rw [hq, h1], ?_⟩
            intro b hb hmb
            rcases List.mem_cons.mp hb with rfl | hb'
            · exact happ hmb
            · exact h2 b hb' hmb
          · right
            refine ⟨a, List.mem_cons_of_mem _ ha, by rw [hq, h1], h2, h3, ?_⟩
            intro b hb hmb
            rcases List.mem_cons.mp hb with rfl | hb'
            · cases hba : pyStrLt a.id b.id with
              | false => rfl
              | true =>
                  have htr := pyStrLtAux_trans _ _ _ h3 hba
                  have h5 : pyStrLtAux top.toList b.id.toList = false :=
                    happ hmb
                  rw [h5] at htr
                  exact absurd htr (by simp)
            · exact h4 b hb' hmb

/-- C8 as stated is false on the code: an application whose `name` contains
the kernel id but whose `id` is the empty string is the lexicographic
maximum of the (single-element) matching set, yet `_query_app_by_name`
returns `None`, because the running maximum starts at `""` and must be
strictly exceeded. -/
theorem c8_query_app_by_name_counterexample :
    queryAppByName (some [⟨"k1-app", ""⟩]) "k1" = none ∧
    pyFindGe0 "k1-app" "k1" = true := by
  constructor
  · rfl
  · decide

/-- C8 (amended): `_query_app_by_name` returns `None` when the
`cluster_applications` query fails; any returned application contains the
kernel id in its name, has a non-empty id, and its id is a lexicographic
maximum over all matching applications; whenever some matching application
has a non-empty id an application is returned; and when no matching
application has a non-empty id (in particular when nothing matches) the
result is `None`. -/
theorem c8_query_app_by_name_amended :
    (∀ kid, queryAppByName none kid = none) ∧
    (∀ apps kid a, queryAppByName (some apps) kid = some a →
      a ∈ apps ∧ pyFindGe0 a.name kid = true ∧ pyStrLt "" a.id = true ∧
      ∀ b ∈ apps, pyFindGe0 b.name kid = true → pyStrLt a.id b.id = false) ∧
    (∀ apps kid, (∃ b ∈ apps, pyFindGe0 b.name kid = true ∧
        pyStrLt "" b.id = true) →
      ∃ a, queryAppByName (some apps) kid = some a) ∧
    (∀ apps kid, (∀ b ∈ apps, pyFindGe0 b.name kid = true →
        pyStrLt "" b.id = false) →
      queryAppByName (some apps) kid = none) := by
  refine ⟨fun kid => rfl, ?_, ?_, ?_⟩
  · intro apps kid a hres
    rcases queryLoop_spec kid apps "" none with ⟨h1, h2⟩ | ⟨a', ha', h1, h2, h3, h4⟩
    · rw [queryAppByName, h1] at hres
      exact absurd hres (by simp)
    · rw [queryAppByName, h1] at hres
      obtain rfl := Option.some.inj hres
      exact ⟨ha', h2, h3, h4⟩
  · intro apps kid ⟨b, hb, hmb, hid⟩
    rcases queryLoop_spec kid apps "" none with ⟨h1, h2⟩ | ⟨a', _, h1, _, _, _⟩
    · rw [h2 b hb hmb] at hid
      exact absurd hid (by simp)
    · exact ⟨a', by rw [queryAppByName, h1]⟩
  · intro apps kid hnone
    rcases queryLoop_spec kid apps "" none with ⟨h1, _⟩ | ⟨a', ha', h1, hm, hlt, _⟩
    · rw [queryAppByName, h1]
    · rw [hnone a' ha' hm] at hlt
      exact absurd hlt (by simp)

/-- Witness for C8 (amended): over two matching applications with ids
`app2` and `app1`, the returned application is the one with the
lexicographically larger id `app2`. -/
theorem c8_query_app_by_name_amended_witness :
    (⟨"k1-x", "app2"⟩ : YarnApp) ∈
        ([⟨"k1-x", "app2"⟩, ⟨"k1-y", "app1"⟩] : List YarnApp) ∧
    pyFindGe0 "k1-x" "k1" = true ∧ pyStrLt "" "app2" = true ∧
    ∀ b ∈ ([⟨"k1-x", "app2"⟩, ⟨"k1-y", "app1"⟩] : List YarnApp),
      pyFindGe0 b.name "k1" = true → pyStrLt "app2" b.id = false :=
  c8_query_app_by_name_amended.2.1 [⟨"k1-x", "app2"⟩, ⟨"k1-y", "app1"⟩] "k1"
    ⟨"k1-x", "app2"⟩ (by rfl)

/-! ## Claim C3 -/

/-- C3 as stated is false on the code: with the default
`response_port = 8877` and `response_port_retries = 10` (so 11 attempts) and
a random stream that draws `-22 ∈ [-2*11, 2*11]`, the attempt of index 5 —
within the retry budget — is the candidate `max(1, 8877 - 22) = 8855`, not
`8877 + 5 = 8882`: only the first five candidates are sequential. -/
theorem c3_sequential_fallback_counterexample :
    (randomPorts desiredResponsePort (responsePortRetries + 1)
        (fun _ => -22)).get? 5 = some 8855 ∧
    5 < responsePortRetries + 1 ∧ (8855 : Int) ≠ 8877 + 5 := by
  refine ⟨?_, by decide, by decide⟩
  rfl

/-- C3 (amended): `_random_ports(port, n)` yields `port + i` for the first
`min(5, n)` attempts and `max(1, port + r)`, `r` the next
`randint(-2n, 2n)` draw, for the remaining `n - 5`; the bind loop skips
candidates failing with EADDRINUSE or EACCES, returns the first candidate
that binds, and raises only after all candidates are exhausted
(`_prepare_response_socket` runs it on
`_random_ports(response_port, response_port_retries + 1)`). -/
theorem c3_port_fallback_amended :
    (∀ (port : Int) (retries : Nat) (rng : Nat → Int)
        (bind : Int → BindOutcome),
      prepareResponseSocketPort port retries rng bind =
        bindLoop bind (randomPorts port (retries + 1) rng)) ∧
    (∀ (port : Int) (n : Nat) (rng : Nat → Int) (i : Nat), i < min 5 n →
      (randomPorts port n rng).get? i = some (port + i)) ∧
    (∀ (port : Int) (n : Nat) (rng : Nat → Int) (j : Nat), j < n - 5 →
      (randomPorts port n rng).get? (min 5 n + j) =
        some (max 1 (port + rng j))) ∧
    (∀ (bind : Int → BindOutcome) (cands1 : List Int) (p : Int)
        (cands2 : List Int),
      (∀ q ∈ cands1, bind q = BindOutcome.addrInUse ∨
        bind q = BindOutcome.acces) →
      bind p = BindOutcome.ok →
      bindLoop bind (cands1 ++ p :: cands2) = Except.ok p) ∧
    (∀ (bind : Int → BindOutcome) (cands : List Int),
      (∀ q ∈ cands, bind q = BindOutcome.addrInUse ∨
        bind q = BindOutcome.acces) →
      bindLoop bind cands = Except.error BindError.exhausted) := by
  refine ⟨fun _ _ _ _ => rfl, ?_, ?_, ?_, ?_⟩
  · intro port n rng i hi
    rw [randomPorts]
    rw [List.get?_append (by simpa using hi)]
    rw [List.get?_map, List.get?_range hi]
    rfl
  · intro port n rng j hj
    rw [randomPorts]
    rw [List.get?_append_right (by simp)]
    simp only [List.length_map, List.length_range, Nat.add_sub_cancel_left]
    rw [List.get?_map, List.get?_range hj]
    rfl
  · intro bind cands1 p cands2 hskip hok
    induction cands1 with
    | nil => simp [bindLoop, hok]
    | cons q rest ih =>
        have hq := hskip q (by simp)
        have hrest : ∀ x ∈ rest, bind x = BindOutcome.addrInUse ∨
            bind x = BindOutcome.acces :=
          fun x hx => hskip x (List.mem_cons_of_mem _ hx)
        rcases hq with hq | hq <;>
          simp [bindLoop, hq, ih hrest]
  · intro bind cands hskip
    induction cands with
    | nil => rfl
    | cons q rest ih =>
        have hq := hskip q (by simp)
        have hrest : ∀ x ∈ rest, bind x = BindOutcome.addrInUse ∨
            bind x = BindOutcome.acces :=
          fun x hx => hskip x (List.mem_cons_of_mem _ hx)
        rcases hq with hq | hq <;>
          simp [bindLoop, hq, ih hrest]

/-- Witness for C3 (amended): candidate 3 of 11 is `8880`; a bind function
that rejects `8877` with EADDRINUSE and accepts `8878` makes the loop return
`8878`; a bind that always reports EADDRINUSE exhausts `[8877, 8878]`. -/
theorem c3_port_fallback_amended_witness :
    (randomPorts 8877 11 (fun _ => 0)).get? 3 = some (8877 + 3) ∧
    bindLoop (fun q => if q = 8878 then BindOutcome.ok else
        BindOutcome.addrInUse) ([8877] ++ 8878 :: []) = Except.ok 8878 ∧
    bindLoop (fun _ => BindOutcome.addrInUse) [8877, 8878] =
      Except.error BindError.exhausted :=
  ⟨c3_port_fallback_amended.2.1 8877 11 (fun _ => 0) 3 (by decide),
   c3_port_fallback_amended.2.2.2.1
      (fun q => if q = 8878 then BindOutcome.ok else BindOutcome.addrInUse)
      [8877] 8878 [] (by intro q hq; simp at hq; subst hq; left; decide)
      (by decide),
   c3_port_fallback_amended.2.2.2.2 (fun _ => BindOutcome.addrInUse)
      [8877, 8878] (by intro q _; left; rfl)⟩

/-! ## Claim C4 -/

/-- C4 as stated is false on the code: for a kernel id that was never
registered, `get_connection_info` raises `KeyError` from the registry
subscript (before any awaiting) rather than timing out. -/
theorem c4_get_connection_info_counterexample :
    getConnectionInfo [] "kid" = GetConnInfoResult.keyError ∧
    GetConnInfoResult.keyError ≠ GetConnInfoResult.timeoutError :=
  ⟨rfl, by simp⟩

/-- C4 (amended): `get_connection_info(k)` raises `KeyError` exactly for
unregistered kernel ids; for a registered id whose response has not yet been
posted, the await times out (after `connection_interval = poll_interval /
100`, letting the outer state machine iterate); for a registered id whose
response was posted, the entry is popped and the response returned. -/
theorem c4_get_connection_info_amended :
    (∀ (registry : ResponseRegistry) (kernelId : String),
      aGet registry kernelId = none →
      getConnectionInfo registry kernelId = GetConnInfoResult.keyError) ∧
    (∀ (registry : ResponseRegistry) (kernelId : String),
      aGet registry kernelId = some none →
      getConnectionInfo registry kernelId = GetConnInfoResult.timeoutError) ∧
    (∀ (registry : ResponseRegistry) (kernelId : String) (c : Conn),
      aGet registry kernelId = some (some c) →
      getConnectionInfo registry kernelId =
        GetConnInfoResult.delivered (some c) (aRemove registry kernelId)) ∧
    connectionInterval = pollInterval / 100 := by
  refine ⟨?_, ?_, ?_, rfl⟩
  · intro registry kernelId h
    rw [getConnectionInfo, h]
  · intro registry kernelId h
    rw [getConnectionInfo, h]
  · intro registry kernelId c h
    rw [getConnectionInfo, h]

/-- Witness for C4 (amended) at concrete registries: an empty registry gives
`KeyError`; a registered-but-unset entry times out; a set entry delivers. -/
theorem c4_get_connection_info_amended_witness :
    getConnectionInfo [] "k1" = GetConnInfoResult.keyError ∧
    getConnectionInfo [("k1", none)] "k1" = GetConnInfoResult.timeoutError ∧
    getConnectionInfo [("k1", some [("pid", PVal.int 7)])] "k1" =
      GetConnInfoResult.delivered (some [("pid", PVal.int 7)])
        (aRemove [("k1", some [("pid", PVal.int 7)])] "k1") :=
  ⟨c4_get_connection_info_amended.1 [] "k1" rfl,
   c4_get_connection_info_amended.2.1 [("k1", none)] "k1" rfl,
   c4_get_connection_info_amended.2.2.1 [("k1", some [("pid", PVal.int 7)])]
      "k1" [("pid", PVal.int 7)] rfl⟩

/-! ## Claim C1 -/

/-- C1 as stated is false on the code: decoding the version-1 encoding of a
connection-info object whose `"key"` entry is the string `"abc"` returns the
object with that entry converted to bytes
(`connection_info["key"] = connection_info["key"].encode()`), which differs
from the original object. -/
theorem c1_roundtrip_counterexample :
    decodePayload cPrims [] (encodePayload cPrims "0123456789abcdef" cConn) =
      Except.ok [("key", PVal.bytes "abc"), ("kernel_id", PVal.str "k1")] ∧
    ([("key", PVal.bytes "abc"), ("kernel_id", PVal.str "k1")] : Conn) ≠
      cConn := by
  refine ⟨?_, by decide⟩
  rfl

/-- C1 (amended): whenever the library primitives round-trip on the payload
of `p` (base64, the envelope codec, RSA on the AES key, AES on the padded
connection info, PKCS7 padding, and the connection-info codec),
`_decode_payload` applied to the launcher encoding of `p` under any 16-byte
AES key returns `p` with its `"key"` entry converted from string to bytes
(exactly `p` when no string `"key"` entry is present); every payload whose
envelope lacks `version` or carries `version != 1` is routed through the
legacy v0 fallback exactly once — the result is the fallback's decoding, or
the triggering `ValueError` re-raised when no registrant decrypts — and a
successful fallback decoding comes from some registered kernel id whose
first 16 characters formed the AES key, with that kernel id injected into
the returned object. -/
theorem c1_decode_payload_amended :
    (∀ (pr : DecodePrims) (registry : List String) (aesKey : String)
        (p q : Conn),
      (∀ s, pr.b64decode (pr.b64encode s) = some s) →
      pr.jsonParseEnv (pr.jsonDumpEnv (v1Envelope pr aesKey p)) =
        some (v1Envelope pr aesKey p) →
      pr.rsaDecrypt (pr.rsaEncrypt aesKey) = aesKey →
      pr.aesDecrypt aesKey
          (pr.aesEncrypt aesKey (pr.pad16 (pr.jsonDumpConn p))) =
        some (pr.pad16 (pr.jsonDumpConn p)) →
      pr.unpad16 (pr.pad16 (pr.jsonDumpConn p)) = some (pr.jsonDumpConn p) →
      pr.jsonParseConn (pr.jsonDumpConn p) = some p →
      keyToBytes p = some q →
      decodePayload pr registry (encodePayload pr aesKey p) = Except.ok q) ∧
    (∀ (pr : DecodePrims) (registry : List String) (data payloadStr : String)
        (env : Envelope),
      pr.b64decode data = some payloadStr →
      pr.jsonParseEnv payloadStr = some env →
      (env.version = none ∨ ∃ v, env.version = some v ∧ v ≠ 1) →
      ∃ e, (env.version = none → e = DecodeErr.noVersion) ∧
        (∀ v, env.version = some v → v ≠ 1 → e = DecodeErr.badVersion v) ∧
        decodePayload pr registry data =
          legacyFallbackResult pr registry payloadStr e) ∧
    (∀ (pr : DecodePrims) (registry : List String) (payloadStr s : String),
      legacyScan pr registry payloadStr = some s →
      ∃ kid ∈ registry, ∃ c : Conn,
        (pyTake kid 16).length = 16 ∧
        (∃ d, pr.aesDecrypt (pyTake kid 16) payloadStr = some d ∧
          pr.jsonParseConn (String.mk (pyRsplitBrace d.toList)) = some c) ∧
        s = pr.jsonDumpConn (aSet c "kernel_id" (PVal.str kid))) := by
  refine ⟨?_, ?_, ?_⟩
  · intro pr registry aesKey p q hb henv hrsa haes hpad hconn hq
    simp only [v1Envelope] at henv
    simp only [encodePayload, decodePayload, v1Envelope, hb, tryDecodeV1,
      henv, hrsa, haes, hpad, finalizeConnInfo, hconn, hq,
      eq_self_iff_true, if_true]
  · intro pr registry data payloadStr env hb henv hver
    have hdec : ∀ e, tryDecodeV1 pr payloadStr = Except.error e →
        decodePayload pr registry data =
          legacyFallbackResult pr registry payloadStr e := by
      intro e htry
      simp only [decodePayload, hb, htry, legacyFallbackResult]
    rcases hver with hver | ⟨v, hver, hvne⟩
    · refine ⟨DecodeErr.noVersion, fun _ => rfl, ?_, ?_⟩
      · intro v hv _
        rw [hver] at hv
        cases hv
      · refine hdec _ ?_
        simp only [tryDecodeV1, henv, hver]
    · refine ⟨DecodeErr.badVersion v, ?_, ?_, ?_⟩
      · intro h0
        rw [hver] at h0
        cases h0
      · intro v' hv' _
        rw [hver] at hv'
        rw [Option.some.inj hv']
      · refine hdec _ ?_
        simp only [tryDecodeV1, henv, hver]
        rw [if_neg hvne]
  · intro pr registry
    induction registry with
    | nil =>
        intro payloadStr s h
        simp only [legacyScan] at h
        simp at h
    | cons kid rest ih =>
        intro payloadStr s h
        simp only [legacyScan] at h
        cases hat : legacyAttempt pr kid payloadStr with
        | none =>
            simp only [hat] at h
            obtain ⟨kid', hk', hrest⟩ := ih payloadStr s h
            exact ⟨kid', List.mem_cons_of_mem _ hk', hrest⟩
        | some s' =>
            simp only [hat, Option.some.injEq] at h
            subst h
            simp only [legacyAttempt] at hat
            by_cases hlen : (pyTake kid 16).length = 16
            · rw [if_pos hlen] at hat
              cases hdec : pr.aesDecrypt (pyTake kid 16) payloadStr with
              | none =>
                  simp only [hdec] at hat
                  exact Option.noConfusion hat
              | some d =>
                  simp only [hdec] at hat
                  cases hparse : pr.jsonParseConn
                      (String.mk (pyRsplitBrace d.toList)) with
                  | none =>
                      simp only [hparse] at hat
                      exact Option.noConfusion hat
                  | some c =>
                      simp only [hparse, Option.some.injEq] at hat
                      exact ⟨kid, List.mem_cons_self _ _, c, hlen,
                        ⟨d, hdec, hparse⟩, hat.symm⟩
            · rw [if_neg hlen] at hat
              simp at hat

/-- Witness for C1 (amended), applying all three parts at concrete inputs:
the round trip under the concrete primitives delivers `cConn` with its key
as bytes; a version-less envelope is routed to the (empty) fallback; and a
successful legacy scan exhibits its registrant. -/
theorem c1_decode_payload_amended_witness :
    decodePayload cPrims [] (encodePayload cPrims "0123456789abcdef" cConn) =
      Except.ok [("key", PVal.bytes "abc"), ("kernel_id", PVal.str "k1")] ∧
    (∃ e, ((cPrims.jsonParseEnv "ENV0").getD
        { version := none, key := none, conn_info := none }).version = none →
        e = DecodeErr.noVersion) ∧
    (∃ kid ∈ ["0123456789abcdef"], ∃ c : Conn,
      (pyTake kid 16).length = 16 ∧
      (∃ d, cPrims.aesDecrypt (pyTake kid 16) "CONN" = some d ∧
        cPrims.jsonParseConn (String.mk (pyRsplitBrace d.toList)) = some c) ∧
      "CONN" = cPrims.jsonDumpConn (aSet c "kernel_id" (PVal.str kid))) := by
  refine ⟨?_, ?_, ?_⟩
  · exact c1_decode_payload_amended.1 cPrims [] "0123456789abcdef" cConn
      [("key", PVal.bytes "abc"), ("kernel_id", PVal.str "k1")]
      (fun s => rfl) rfl rfl rfl rfl rfl rfl
  · obtain ⟨e, he, _, _⟩ := c1_decode_payload_amended.2.1 cPrims [] "ENV0"
      "ENV0" { version := none, key := none, conn_info := none } rfl rfl
      (Or.inl rfl)
    exact ⟨e, fun _ => he rfl⟩
  · exact c1_decode_payload_amended.2.2 cPrims ["0123456789abcdef"] "CONN"
      "CONN" rfl

end GatewayProvisioners
